import Mathlib

/-!
# Verification of the `Channel` SPSC ring buffer

A shallow embedding of `Channel<T>` from `channel.h`, modelled as a
sequential interleaving of the single producer's `Send` calls and the
single consumer's `Receive` calls (the SPSC discipline).

The repository contains three historical variants of the class:

* the `volatile` / `__sync_synchronize` variant (`Send` at lines 48-68,
  `Receive` at lines 70-90 of the concatenated header);
* the `std::atomic` variant (`Send` at lines 139-150, `Receive` at
  lines 152-162) — the primary variant, embedded as `send` / `receive`;
* a power-of-two-minus-one variant (lines 165-255), not needed by the
  properties below except through its constructor assertion.

C++ `int` fields `r_`, `w_`, `cap_`, `size_`, `size_mask_` are modelled
as `Nat` (all reachable values are small and non-negative; `w - r` in
`Send`, which can be negative, is computed in `Int` exactly as the C++
`int` subtraction does, since no overflow can occur for in-range
indices).  The buffer `T* buf_` is a `List α` of length `size_`.  The
floating-point expression `floor(log(capacity)/log(2))` is modelled by
the exact integer base-2 logarithm, which is the value the `double`
computation produces for all realistic capacities; at `capacity = 0`
the C++ computation is undefined (`log(0) = -inf`), which the model
records separately (`storageLenChecked`).
-/

namespace ChannelModel

/-- Fuel-driven floor of the base-2 logarithm, so that the kernel can
evaluate it on literals.  `log2go fuel n = ⌊log₂ n⌋` whenever `n ≤ fuel`
and `1 ≤ n`. -/
def log2go : Nat → Nat → Nat
  | 0, _ => 0
  | fuel + 1, n => if n < 2 then 0 else log2go fuel (n / 2) + 1

/-- `⌊log₂ c⌋` for `c ≥ 1`; models the C++ `floor(log(capacity)/log(2))`
(computed with exact real arithmetic). -/
def floorLog2 (n : Nat) : Nat := log2go n n

/-- The storage length the constructor computes for `capacity = c ≥ 1`:
`int power = floor(log(capacity)/log(2)) + 1; size_ = 1 << power;`
(channel.h lines 114-115, identically lines 18-19). -/
def storageLen (c : Nat) : Nat := 2 ^ (floorLog2 c + 1)

/-- The constructor's assertion `assert(capacity >= 0)` (channel.h
lines 16 and 112), on the C++ `int` argument. -/
def ctorAccepts (capacity : Int) : Bool := decide (0 ≤ capacity)

/-- The constructor's sizing computation, made partial to record where
it is mathematically defined: at `capacity = 0` the C++ code evaluates
`floor(log(0)/log(2)) + 1 = -∞` and converts it to `int`, which is
undefined behavior, so no storage length is defined there. -/
def storageLenChecked (capacity : Nat) : Option Nat :=
  if capacity = 0 then none else some (storageLen capacity)

/-- The state of a `Channel<α>`: fields `cap_`, `size_`, `size_mask_`,
`buf_`, `r_`, `w_` of the C++ class. -/
structure Chan (α : Type) where
  cap : Nat
  size : Nat
  mask : Nat
  buf : List α
  r : Nat
  w : Nat
deriving DecidableEq, Repr

/-- The constructor `Channel(int capacity)` of the atomic variant
(channel.h lines 111-118): `cap_ = capacity`, `r_ = w_ = 0`,
`size_ = 1 << (floor(log2 capacity) + 1)`, `size_mask_ = size_ - 1`,
`buf_ = new T[size_]` (value-initialized slots modelled by `default`).
Meaningful for `capacity ≥ 1` (see `storageLenChecked`). -/
def mkChan (α : Type) [Inhabited α] (capacity : Nat) : Chan α :=
  { cap := capacity
    size := storageLen capacity
    mask := storageLen capacity - 1
    buf := List.replicate (storageLen capacity) default
    r := 0
    w := 0 }

/-- `Channel::Send` of the atomic variant (channel.h lines 139-150):
load `w = w_`, `r = r_`, compute `nitems = w - r` (C++ `int`
subtraction, modelled in `Int`); if `nitems == cap_ || nitems + size_
== cap_` return `false` with the state untouched; otherwise store the
item at `buf_[w]` and publish `w_ = (w+1) & size_mask_`. -/
def send (s : Chan α) (item : α) : Bool × Chan α :=
  let w := s.w
  let r := s.r
  let nitems : Int := (w : Int) - (r : Int)
  if nitems = (s.cap : Int) ∨ nitems + (s.size : Int) = (s.cap : Int) then
    (false, s)
  else
    (true, { s with buf := s.buf.set w item, w := (w + 1) &&& s.mask })

/-- `Channel::Receive` of the atomic variant (channel.h lines
152-162): load `r = r_`, `w = w_`; if `r == w` return `false` with no
side effect (nothing is written through the out pointer, modelled by
`none`); otherwise read `*item = buf_[r]` and publish
`r_ = (r+1) & size_mask_`. -/
def receive [Inhabited α] (s : Chan α) : Option α × Chan α :=
  let r := s.r
  let w := s.w
  if r = w then
    (none, s)
  else
    (some (s.buf.getD r default), { s with r := (r + 1) &&& s.mask })

/-- The accessor `int capacity() const { return cap_; }` (channel.h
line 122). -/
def capacity (s : Chan α) : Nat := s.cap

/-- A call made by one of the two threads, sequentially interleaved. -/
inductive Op (α : Type) where
  | send (x : α)
  | receive
deriving DecidableEq, Repr

/-- One sequential step of the atomic variant. -/
def step [Inhabited α] (s : Chan α) : Op α → Chan α
  | .send x => (send s x).2
  | .receive => (receive s).2

/-- Run a sequence of calls, keeping only the final state. -/
def run [Inhabited α] (s : Chan α) (ops : List (Op α)) : Chan α :=
  ops.foldl step s

/-- Occupancy, exactly as the spec defines it:
`(writeIndex − readIndex) mod storageLength`. -/
def occ (s : Chan α) : Nat := (s.w + s.size - s.r) % s.size

/-- The abstract queue currently held by the channel: the slots from
`r_` (inclusive) to `w_` (exclusive), in ring order. -/
def queue [Inhabited α] (s : Chan α) : List α :=
  (List.range (occ s)).map fun i => s.buf.getD ((s.r + i) % s.size) default

/-- State invariant maintained by every reachable state of a channel
constructed with `capacity ≥ 1`. -/
structure Inv (s : Chan α) : Prop where
  size_eq : s.size = storageLen s.cap
  mask_eq : s.mask = s.size - 1
  buf_len : s.buf.length = s.size
  r_lt : s.r < s.size
  w_lt : s.w < s.size
  occ_le : occ s ≤ s.cap

/-- Run a sequence of calls, recording the values accepted by
successful `Send`s and the values delivered by successful `Receive`s,
each in call order, together with the final state. -/
def runTrace [Inhabited α] (s : Chan α) : List (Op α) → List α × List α × Chan α
  | [] => ([], [], s)
  | Op.send x :: ops =>
      let res := send s x
      let rest := runTrace res.2 ops
      (if res.1 then x :: rest.1 else rest.1, rest.2.1, rest.2.2)
  | Op.receive :: ops =>
      let res := receive s
      let rest := runTrace res.2 ops
      (rest.1, res.1.toList ++ rest.2.1, rest.2.2)

/-- Run a sequence of calls recording, for each call, the boolean the
C++ member function returns and (for `Receive`) the item written
through the out pointer, together with the final state.  Parameterized
by the `Send`/`Receive` implementation so that the two variants of the
class can be compared observation-for-observation. -/
def runObsWith (snd : Chan α → α → Bool × Chan α) (rcv : Chan α → Option α × Chan α) :
    Chan α → List (Op α) → List (Bool × Option α) × Chan α
  | s, [] => ([], s)
  | s, Op.send x :: ops =>
      let res := snd s x
      let rest := runObsWith snd rcv res.2 ops
      ((res.1, none) :: rest.1, rest.2)
  | s, Op.receive :: ops =>
      let res := rcv s
      let rest := runObsWith snd rcv res.2 ops
      ((res.1.isSome, res.1) :: rest.1, rest.2)

/-- Per-call observations of the atomic variant. -/
def runObs [Inhabited α] : Chan α → List (Op α) → List (Bool × Option α) × Chan α :=
  runObsWith send receive

/-- `Channel::Send` of the volatile/`__sync_synchronize` variant
(channel.h lines 48-68): load `r = r_`, `w = w_`, compute
`next = (w + 1) & size_mask_`; if `((w > r) ? w - r : w - r + size_)
== cap_` return `false`; otherwise write `buf_[w] = t` and CAS `w_`
from `w` to `next`.  In the sequential SPSC model the CAS succeeds on
its first attempt, because only this call mutates `w_`. -/
def sendV1 (s : Chan α) (t : α) : Bool × Chan α :=
  let r := s.r
  let w := s.w
  let next := (w + 1) &&& s.mask
  if (if w > r then (w : Int) - (r : Int) else (w : Int) - (r : Int) + (s.size : Int))
      = (s.cap : Int) then
    (false, s)
  else
    (true, { s with buf := s.buf.set w t, w := next })

/-- `Channel::Receive` of the volatile variant (channel.h lines
70-90): load `r_` and `w_`, return `false` if they are equal,
otherwise read `buf_[r]` and CAS `r_` forward (which, sequentially,
succeeds first try since only this call mutates `r_`). -/
def receiveV1 [Inhabited α] (s : Chan α) : Option α × Chan α :=
  let r := s.r
  let w := s.w
  if r = w then
    (none, s)
  else
    (some (s.buf.getD r default), { s with r := (r + 1) &&& s.mask })

/-- Per-call observations of the volatile variant. -/
def runObsV1 [Inhabited α] : Chan α → List (Op α) → List (Bool × Option α) × Chan α :=
  runObsWith sendV1 receiveV1

/-- `m` is the smallest power of two at least as large as `c` — the
sizing rule as the specification words it. -/
def isLeastPow2GE (c m : Nat) : Prop :=
  (∃ k, m = 2 ^ k) ∧ c ≤ m ∧ ∀ m', (∃ k, m' = 2 ^ k) → c ≤ m' → m ≤ m'

/-- `m` is the smallest power of two strictly greater than `c` — the
sizing rule the constructor actually implements. -/
def isLeastPow2GT (c m : Nat) : Prop :=
  (∃ k, m = 2 ^ k) ∧ c < m ∧ ∀ m', (∃ k, m' = 2 ^ k) → c < m' → m ≤ m'

/-! ## Arithmetic facts about the sizing computation -/

lemma log2go_bounds :
    ∀ fuel n, n ≤ fuel → 1 ≤ n →
      2 ^ log2go fuel n ≤ n ∧ n < 2 ^ (log2go fuel n + 1) := by
  intro fuel
  induction fuel with
  | zero => intro n hle h1; omega
  | succ fuel ih =>
    intro n hle h1
    unfold log2go
    by_cases h2 : n < 2
    · simp only [h2, if_true]
      constructor
      · simpa using h1
      · have : n = 1 := by omega
        simp [this]
    · simp only [h2, if_false]
      have hhalf : n / 2 ≤ fuel := by omega
      have hhalf1 : 1 ≤ n / 2 := by omega
      obtain ⟨hlo, hhi⟩ := ih (n / 2) hhalf hhalf1
      constructor
      · calc 2 ^ (log2go fuel (n / 2) + 1)
              = 2 ^ log2go fuel (n / 2) * 2 := by ring
          _ ≤ n / 2 * 2 := by omega
          _ ≤ n := by omega
      · have : n < 2 ^ (log2go fuel (n / 2) + 1) * 2 :=
          (Nat.div_lt_iff_lt_mul (by omega)).1 hhi
        calc n < 2 ^ (log2go fuel (n / 2) + 1) * 2 := this
          _ = 2 ^ (log2go fuel (n / 2) + 1 + 1) := by ring

lemma pow_floorLog2_le {c : Nat} (h : 1 ≤ c) : 2 ^ floorLog2 c ≤ c :=
  (log2go_bounds c c le_rfl h).1

lemma lt_pow_floorLog2_succ {c : Nat} (h : 1 ≤ c) : c < 2 ^ (floorLog2 c + 1) :=
  (log2go_bounds c c le_rfl h).2

/-- The requested capacity is always strictly smaller than the computed
storage length (for `c = 0` as well, where `storageLen 0 = 2`). -/
lemma cap_lt_storageLen (c : Nat) : c < storageLen c := by
  rcases Nat.eq_zero_or_pos c with h | h
  · subst h; decide
  · exact lt_pow_floorLog2_succ h

lemma storageLen_pos (c : Nat) : 0 < storageLen c :=
  Nat.pos_of_ne_zero fun h => by
    have := cap_lt_storageLen c; omega

/-- Masking with `size_mask_ = size_ - 1` is reduction modulo `size_`,
because the storage length is a power of two. -/
lemma and_mask_eq_mod (c x : Nat) : x &&& (storageLen c - 1) = x % storageLen c := by
  unfold storageLen
  exact Nat.and_pow_two_sub_one_eq_mod x (floorLog2 c + 1)

/-- Occupancy in closed form, for in-range indices. -/
lemma occ_eq (s : Chan α) (hr : s.r < s.size) (hw : s.w < s.size) :
    occ s = if s.r ≤ s.w then s.w - s.r else s.w + s.size - s.r := by
  unfold occ
  by_cases h : s.r ≤ s.w
  · have h1 : s.w + s.size - s.r = (s.w - s.r) + s.size := by omega
    rw [if_pos h, h1, Nat.add_mod_right, Nat.mod_eq_of_lt (by omega)]
  · rw [if_neg h, Nat.mod_eq_of_lt (by omega)]

lemma mod_cases (x n : Nat) (_hn : 0 < n) (h : x < 2 * n) :
    x % n = if x < n then x else x - n := by
  split_ifs with hlt
  · exact Nat.mod_eq_of_lt hlt
  · rw [Nat.mod_eq_sub_mod (by omega), Nat.mod_eq_of_lt (by omega)]

/-- Advancing the write index increments occupancy (on a non-full state). -/
lemma occ_step_w (r w size cap : Nat) (hr : r < size) (hw : w < size) (hcap : cap < size)
    (hlt : (w + size - r) % size < cap) :
    ((w + 1) % size + size - r) % size = (w + size - r) % size + 1 := by
  have hn : 0 < size := by omega
  have ha : (w + 1) % size = if w + 1 < size then w + 1 else w + 1 - size :=
    mod_cases _ _ hn (by omega)
  have haLt : (w + 1) % size < size := Nat.mod_lt _ hn
  have hb : ((w + 1) % size + size - r) % size =
      if (w + 1) % size + size - r < size then (w + 1) % size + size - r
      else (w + 1) % size + size - r - size :=
    mod_cases _ _ hn (by omega)
  have hc2 : (w + size - r) % size =
      if w + size - r < size then w + size - r else w + size - r - size :=
    mod_cases _ _ hn (by omega)
  rw [hc2] at hlt
  rw [hb, hc2, ha]
  rw [ha] at haLt
  split_ifs at * <;> omega

/-- Advancing the read index decrements occupancy (on a non-empty state). -/
lemma occ_step_r (r w size : Nat) (hr : r < size) (hw : w < size) (hne : r ≠ w) :
    (w + size - (r + 1) % size) % size + 1 = (w + size - r) % size := by
  have hn : 0 < size := by omega
  have ha : (r + 1) % size = if r + 1 < size then r + 1 else r + 1 - size :=
    mod_cases _ _ hn (by omega)
  have haLt : (r + 1) % size < size := Nat.mod_lt _ hn
  have hb : (w + size - (r + 1) % size) % size =
      if w + size - (r + 1) % size < size then w + size - (r + 1) % size
      else w + size - (r + 1) % size - size :=
    mod_cases _ _ hn (by omega)
  have hc2 : (w + size - r) % size =
      if w + size - r < size then w + size - r else w + size - r - size :=
    mod_cases _ _ hn (by omega)
  rw [hb, hc2, ha]
  rw [ha] at haLt
  split_ifs at * <;> omega

/-! ## Behaviour of `Send` and `Receive` on single states -/

/-- A failing `Send` leaves the channel state (indices, every buffer
slot, capacity/size/mask fields) unchanged. -/
lemma send_fail_state (s : Chan α) (x : α) (h : (send s x).1 = false) :
    (send s x).2 = s := by
  by_cases hc : ((s.w : Int) - (s.r : Int) = (s.cap : Int) ∨
      (s.w : Int) - (s.r : Int) + (s.size : Int) = (s.cap : Int))
  · simp [send, hc]
  · simp [send, hc] at h

/-- A failing `Receive` leaves the channel state unchanged (and its
`none` result records that nothing was written through the out
pointer). -/
lemma receive_fail_state [Inhabited α] (s : Chan α) (h : (receive s).1 = none) :
    (receive s).2 = s := by
  by_cases hc : s.r = s.w
  · simp [receive, hc]
  · simp [receive, hc] at h

/-- The fullness test of the atomic `Send` fires exactly when the
occupancy equals the capacity. -/
lemma send_cond_iff (s : Chan α) (inv : Inv s) :
    ((s.w : Int) - (s.r : Int) = (s.cap : Int) ∨
      (s.w : Int) - (s.r : Int) + (s.size : Int) = (s.cap : Int)) ↔ occ s = s.cap := by
  have hcap : s.cap < s.size := by
    rw [inv.size_eq]; exact cap_lt_storageLen s.cap
  have hr := inv.r_lt
  have hw := inv.w_lt
  rw [occ_eq s hr hw]
  split_ifs with h <;> omega

/-- `Send` succeeds exactly when the occupancy is below the capacity. -/
lemma send_true_iff (s : Chan α) (x : α) (inv : Inv s) :
    (send s x).1 = true ↔ occ s < s.cap := by
  have hiff := send_cond_iff s inv
  have hle := inv.occ_le
  by_cases hc : ((s.w : Int) - (s.r : Int) = (s.cap : Int) ∨
      (s.w : Int) - (s.r : Int) + (s.size : Int) = (s.cap : Int))
  · have h1 : occ s = s.cap := hiff.1 hc
    simp [send, hc]
    omega
  · have h1 : ¬ occ s = s.cap := fun h => hc (hiff.2 h)
    simp [send, hc]
    omega

lemma occ_eq_zero_iff (s : Chan α) (hr : s.r < s.size) (hw : s.w < s.size) :
    occ s = 0 ↔ s.r = s.w := by
  rw [occ_eq s hr hw]
  split_ifs with h <;> omega

/-- `Receive` succeeds exactly when the occupancy is positive. -/
lemma receive_isSome_iff [Inhabited α] (s : Chan α) (inv : Inv s) :
    (receive s).1.isSome = true ↔ 0 < occ s := by
  have hiff := occ_eq_zero_iff s inv.r_lt inv.w_lt
  by_cases h : s.r = s.w
  · have h0 : occ s = 0 := hiff.2 h
    simp [receive, h]
    omega
  · have h0 : ¬ occ s = 0 := fun h0 => h (hiff.1 h0)
    simp [receive, h]
    omega

/-- On success, `Send` writes the item at the write position and
advances the write index modulo the storage length. -/
lemma send_true_state (s : Chan α) (x : α) (inv : Inv s) (h : (send s x).1 = true) :
    (send s x).2 = { s with buf := s.buf.set s.w x, w := (s.w + 1) % s.size } := by
  by_cases hc : ((s.w : Int) - (s.r : Int) = (s.cap : Int) ∨
      (s.w : Int) - (s.r : Int) + (s.size : Int) = (s.cap : Int))
  · simp [send, hc] at h
  · have hm : (s.w + 1) &&& s.mask = (s.w + 1) % s.size := by
      rw [inv.mask_eq, inv.size_eq, and_mask_eq_mod]
    simp [send, hc, hm]

/-- On success, `Receive` returns the slot at the read position and
advances the read index modulo the storage length. -/
lemma receive_some_state [Inhabited α] (s : Chan α) (inv : Inv s)
    (h : (receive s).1.isSome = true) :
    (receive s).1 = some (s.buf.getD s.r default) ∧
      (receive s).2 = { s with r := (s.r + 1) % s.size } := by
  by_cases hc : s.r = s.w
  · simp [receive, hc] at h
  · have hm : (s.r + 1) &&& s.mask = (s.r + 1) % s.size := by
      rw [inv.mask_eq, inv.size_eq, and_mask_eq_mod]
    simp [receive, hc, hm]

/-! ## Invariant preservation -/

lemma inv_mkChan (α : Type) [Inhabited α] (c : Nat) : Inv (mkChan α c) := by
  refine ⟨rfl, rfl, ?_, storageLen_pos c, storageLen_pos c, ?_⟩
  · simp [mkChan]
  · simp [occ, mkChan, Nat.mod_self]

lemma inv_send (s : Chan α) (x : α) (inv : Inv s) : Inv (send s x).2 := by
  by_cases h : (send s x).1 = true
  · have hocc : occ s < s.cap := (send_true_iff s x inv).1 h
    have hcap : s.cap < s.size := by rw [inv.size_eq]; exact cap_lt_storageLen s.cap
    have hpos : 0 < s.size := by omega
    have hstep := occ_step_w s.r s.w s.size s.cap inv.r_lt inv.w_lt hcap hocc
    rw [send_true_state s x inv h]
    refine ⟨inv.size_eq, inv.mask_eq, ?_, inv.r_lt, Nat.mod_lt _ hpos, ?_⟩
    · simpa using inv.buf_len
    · show ((s.w + 1) % s.size + s.size - s.r) % s.size ≤ s.cap
      unfold occ at hocc
      omega
  · have hb : (send s x).1 = false := by
      cases hx : (send s x).1 <;> simp_all
    rw [send_fail_state s x hb]
    exact inv

lemma inv_receive [Inhabited α] (s : Chan α) (inv : Inv s) : Inv (receive s).2 := by
  by_cases h : (receive s).1.isSome = true
  · obtain ⟨hv, hs⟩ := receive_some_state s inv h
    have hne : s.r ≠ s.w := by
      intro he
      have h0 : occ s = 0 := (occ_eq_zero_iff s inv.r_lt inv.w_lt).2 he
      have h1 := (receive_isSome_iff s inv).1 h
      omega
    have hpos : 0 < s.size := by have := inv.r_lt; omega
    have hstep := occ_step_r s.r s.w s.size inv.r_lt inv.w_lt hne
    rw [hs]
    refine ⟨inv.size_eq, inv.mask_eq, inv.buf_len, Nat.mod_lt _ hpos, inv.w_lt, ?_⟩
    show (s.w + s.size - (s.r + 1) % s.size) % s.size ≤ s.cap
    have hle := inv.occ_le
    unfold occ at hle
    omega
  · have hb : (receive s).1 = none := by
      cases hx : (receive s).1 <;> simp_all
    rw [receive_fail_state s hb]
    exact inv

lemma inv_step [Inhabited α] (s : Chan α) (op : Op α) (inv : Inv s) : Inv (step s op) := by
  cases op with
  | send x => exact inv_send s x inv
  | receive => exact inv_receive s inv

lemma inv_run [Inhabited α] (s : Chan α) (ops : List (Op α)) (inv : Inv s) :
    Inv (run s ops) := by
  induction ops generalizing s with
  | nil => exact inv
  | cons op ops ih => exact ih _ (inv_step s op inv)

lemma send_cap (s : Chan α) (x : α) : (send s x).2.cap = s.cap := by
  simp only [send]
  split <;> rfl

lemma receive_cap [Inhabited α] (s : Chan α) : (receive s).2.cap = s.cap := by
  simp only [receive]
  split <;> rfl

lemma step_cap [Inhabited α] (s : Chan α) (op : Op α) : (step s op).cap = s.cap := by
  cases op with
  | send x => exact send_cap s x
  | receive => exact receive_cap s

lemma run_cap [Inhabited α] (s : Chan α) (ops : List (Op α)) : (run s ops).cap = s.cap := by
  induction ops generalizing s with
  | nil => rfl
  | cons op ops ih =>
    show (run (step s op) ops).cap = s.cap
    rw [ih, step_cap]

/-! ## The abstract queue -/

lemma getD_set_ne (l : List α) (i j : Nat) (a d : α) (h : i ≠ j) :
    (l.set i a).getD j d = l.getD j d := by
  simp [List.getD_eq_getElem?_getD, List.getElem?_set_ne h]

lemma getD_set_self (l : List α) (i : Nat) (a d : α) (h : i < l.length) :
    (l.set i a).getD i d = a := by
  simp [List.getD_eq_getElem?_getD, List.getElem?_set_self h]

/-- Queued slots (offsets below the occupancy) never alias the write
position. -/
lemma slot_ne_w (s : Chan α) (inv : Inv s) (i : Nat) (hi : i < occ s) :
    (s.r + i) % s.size ≠ s.w := by
  have hr := inv.r_lt
  have hw := inv.w_lt
  have hcap : s.cap < s.size := by rw [inv.size_eq]; exact cap_lt_storageLen s.cap
  have hle := inv.occ_le
  have hocc := occ_eq s hr hw
  have hsz : 0 < s.size := by omega
  have h2 : (s.r + i) % s.size = if s.r + i < s.size then s.r + i else s.r + i - s.size :=
    mod_cases _ _ hsz (by omega)
  rw [h2]
  split_ifs at hocc ⊢ <;> omega

/-- The slot one past the queued region is exactly the write position. -/
lemma slot_at_occ (s : Chan α) (hr : s.r < s.size) (hw : s.w < s.size) :
    (s.r + occ s) % s.size = s.w := by
  have hocc := occ_eq s hr hw
  have hsz : 0 < s.size := by omega
  have h2 : (s.r + occ s) % s.size =
      if s.r + occ s < s.size then s.r + occ s else s.r + occ s - s.size :=
    mod_cases _ _ hsz (by split_ifs at hocc <;> omega)
  rw [h2]
  split_ifs at hocc ⊢ <;> omega

lemma queue_mkChan (α : Type) [Inhabited α] (c : Nat) : queue (mkChan α c) = [] := by
  have h : occ (mkChan α c) = 0 := by simp [occ, mkChan, Nat.mod_self]
  simp [queue, h]

/-- A successful `Send` appends the item to the abstract queue. -/
lemma queue_send_true [Inhabited α] (s : Chan α) (x : α) (inv : Inv s)
    (h : (send s x).1 = true) :
    queue (send s x).2 = queue s ++ [x] := by
  have hocc : occ s < s.cap := (send_true_iff s x inv).1 h
  have hcap : s.cap < s.size := by rw [inv.size_eq]; exact cap_lt_storageLen s.cap
  have hstep := occ_step_w s.r s.w s.size s.cap inv.r_lt inv.w_lt hcap hocc
  rw [send_true_state s x inv h]
  have hocc' : occ { s with buf := s.buf.set s.w x, w := (s.w + 1) % s.size } = occ s + 1 := by
    show ((s.w + 1) % s.size + s.size - s.r) % s.size = occ s + 1
    unfold occ
    omega
  unfold queue
  rw [hocc', List.range_succ, List.map_append]
  congr 1
  · apply List.map_congr_left
    intro i hi
    have hi' : i < occ s := List.mem_range.1 hi
    show (s.buf.set s.w x).getD ((s.r + i) % s.size) default
        = s.buf.getD ((s.r + i) % s.size) default
    exact getD_set_ne _ _ _ _ _ fun he => slot_ne_w s inv i hi' he.symm
  · show [(s.buf.set s.w x).getD ((s.r + occ s) % s.size) default] = [x]
    rw [slot_at_occ s inv.r_lt inv.w_lt]
    rw [getD_set_self _ _ _ _ (by rw [inv.buf_len]; exact inv.w_lt)]

/-- A successful `Receive` pops the head of the abstract queue and
returns it. -/
lemma queue_receive_some [Inhabited α] (s : Chan α) (inv : Inv s) (v : α)
    (h : (receive s).1 = some v) :
    queue s = v :: queue (receive s).2 := by
  have hsome : (receive s).1.isSome = true := by rw [h]; rfl
  obtain ⟨hv, hs⟩ := receive_some_state s inv hsome
  have hvv : some v = some (s.buf.getD s.r default) := h ▸ hv
  have hne : s.r ≠ s.w := by
    intro he
    simp [receive, he] at h
  have hstep := occ_step_r s.r s.w s.size inv.r_lt inv.w_lt hne
  rw [hs]
  have hocceq : occ s = occ { s with r := (s.r + 1) % s.size } + 1 := by
    show occ s = (s.w + s.size - (s.r + 1) % s.size) % s.size + 1
    unfold occ
    omega
  unfold queue
  rw [hocceq, List.range_succ_eq_map, List.map_cons, List.map_map]
  congr 1
  · show s.buf.getD ((s.r + 0) % s.size) default = v
    rw [Nat.add_zero, Nat.mod_eq_of_lt inv.r_lt]
    exact (Option.some_inj.1 hvv).symm
  · apply List.map_congr_left
    intro i hi
    show s.buf.getD ((s.r + Nat.succ i) % s.size) default
        = s.buf.getD (((s.r + 1) % s.size + i) % s.size) default
    rw [Nat.mod_add_mod]
    congr 2
    omega

/-! ## FIFO: the trace invariant -/

/-- Along any sequential execution from an invariant state, the items
already in the channel followed by the items accepted by `Send` equal
the items delivered by `Receive` followed by the items still in the
channel. -/
lemma runTrace_queue [Inhabited α] :
    ∀ (ops : List (Op α)) (s : Chan α), Inv s →
      queue s ++ (runTrace s ops).1 =
        (runTrace s ops).2.1 ++ queue (runTrace s ops).2.2
  | [], s, _ => by simp [runTrace]
  | Op.send x :: ops, s, inv => by
      by_cases h : (send s x).1 = true
      · have ih := runTrace_queue ops (send s x).2 (inv_send s x inv)
        have hq := queue_send_true s x inv h
        simp only [runTrace, h, if_true]
        calc queue s ++ x :: (runTrace (send s x).2 ops).1
            = (queue s ++ [x]) ++ (runTrace (send s x).2 ops).1 := by simp
          _ = queue (send s x).2 ++ (runTrace (send s x).2 ops).1 := by rw [hq]
          _ = (runTrace (send s x).2 ops).2.1 ++ queue (runTrace (send s x).2 ops).2.2 := ih
      · have hb : (send s x).1 = false := by
          cases hx : (send s x).1 <;> simp_all
        have hsf := send_fail_state s x hb
        have ih := runTrace_queue ops (send s x).2 (by rw [hsf]; exact inv)
        simp only [runTrace, hb, Bool.false_eq_true, if_false]
        rw [hsf] at ih ⊢
        exact ih
  | Op.receive :: ops, s, inv => by
      cases hr : (receive s).1 with
      | none =>
          have ih := runTrace_queue ops (receive s).2 (inv_receive s inv)
          have hsf := receive_fail_state s hr
          simp only [runTrace, hr, Option.toList_none, List.nil_append]
          rw [hsf] at ih ⊢
          exact ih
      | some v =>
          have ih := runTrace_queue ops (receive s).2 (inv_receive s inv)
          have hq := queue_receive_some s inv v hr
          simp only [runTrace, hr, Option.toList_some]
          rw [hq]
          simp only [List.cons_append]
          exact congrArg (List.cons v) ih

/-! ## Equivalence of the volatile and atomic variants -/

lemma receiveV1_eq [Inhabited α] (s : Chan α) : receiveV1 s = receive s := rfl

/-- On any invariant state with positive capacity, the volatile
variant's `Send` and the atomic variant's `Send` agree exactly. -/
lemma sendV1_eq (s : Chan α) (x : α) (inv : Inv s) (hcap1 : 1 ≤ s.cap) :
    sendV1 s x = send s x := by
  have hcap : s.cap < s.size := by rw [inv.size_eq]; exact cap_lt_storageLen s.cap
  have hr := inv.r_lt
  have hw := inv.w_lt
  have hcond : ((if s.w > s.r then (s.w : Int) - (s.r : Int)
        else (s.w : Int) - (s.r : Int) + (s.size : Int)) = (s.cap : Int)) ↔
      ((s.w : Int) - (s.r : Int) = (s.cap : Int) ∨
        (s.w : Int) - (s.r : Int) + (s.size : Int) = (s.cap : Int)) := by
    split_ifs with h <;> omega
  simp only [sendV1, send]
  exact if_congr hcond rfl rfl

lemma runObsWith_V1_eq [Inhabited α] :
    ∀ (ops : List (Op α)) (s : Chan α), Inv s → 1 ≤ s.cap →
      runObsWith sendV1 receiveV1 s ops = runObsWith send receive s ops
  | [], _, _, _ => rfl
  | Op.send x :: ops, s, inv, h1 => by
      have hs := sendV1_eq s x inv h1
      have ih := runObsWith_V1_eq ops (send s x).2 (inv_send s x inv)
        (by rw [send_cap]; exact h1)
      simp only [runObsWith, hs, ih]
  | Op.receive :: ops, s, inv, h1 => by
      have ih := runObsWith_V1_eq ops (receive s).2 (inv_receive s inv)
        (by rw [receive_cap]; exact h1)
      simp only [runObsWith, receiveV1_eq, ih]

/-! ## The claims -/

/-- C1: for every channel (of positive capacity; `capacity = 0` makes
the constructor's sizing computation undefined, see `C6`) and every
finite sequence of `Send`/`Receive` calls under the sequentially
interleaved SPSC discipline, the sequence of values delivered by
successful `Receive`s is exactly an initial segment, in order, of the
sequence of values accepted by successful `Send`s: strict FIFO. -/
theorem C1_fifo_order (α : Type) [Inhabited α] (c : Nat) (_hc : 1 ≤ c)
    (ops : List (Op α)) :
    ∃ rest, (runTrace (mkChan α c) ops).1 =
      (runTrace (mkChan α c) ops).2.1 ++ rest := by
  have h := runTrace_queue ops (mkChan α c) (inv_mkChan α c)
  rw [queue_mkChan, List.nil_append] at h
  exact ⟨queue (runTrace (mkChan α c) ops).2.2, h⟩

/-- Witness for `C1_fifo_order` at capacity 2 and a concrete call
sequence. -/
theorem C1_fifo_order_witness :
    1 ≤ 2 ∧ ∃ rest,
      (runTrace (mkChan Int 2) [Op.send 5, Op.send 6, Op.receive]).1 =
        (runTrace (mkChan Int 2) [Op.send 5, Op.send 6, Op.receive]).2.1 ++ rest :=
  ⟨by decide, C1_fifo_order Int 2 (by decide) [Op.send 5, Op.send 6, Op.receive]⟩

/-- C2: in every state reachable by `Send`/`Receive` calls on a
channel of positive capacity `c`, `Send` returns true exactly when the
occupancy is strictly below `c`, and `Receive` returns true exactly
when the occupancy is strictly positive. -/
theorem C2_occupancy_gating (α : Type) [Inhabited α] (c : Nat) (_hc : 1 ≤ c)
    (ops : List (Op α)) (x : α) :
    ((send (run (mkChan α c) ops) x).1 = true ↔ occ (run (mkChan α c) ops) < c) ∧
    ((receive (run (mkChan α c) ops)).1.isSome = true ↔ 0 < occ (run (mkChan α c) ops)) := by
  have inv := inv_run (mkChan α c) ops (inv_mkChan α c)
  have hcap : (run (mkChan α c) ops).cap = c := run_cap (mkChan α c) ops
  have h1 := send_true_iff (run (mkChan α c) ops) x inv
  have h2 := receive_isSome_iff (run (mkChan α c) ops) inv
  rw [hcap] at h1
  exact ⟨h1, h2⟩

/-- Witness for `C2_occupancy_gating` on a freshly constructed
channel of capacity 1. -/
theorem C2_occupancy_gating_witness :
    1 ≤ 1 ∧
    (((send (run (mkChan Int 1) []) 5).1 = true ↔ occ (run (mkChan Int 1) []) < 1) ∧
      ((receive (run (mkChan Int 1) [])).1.isSome = true ↔ 0 < occ (run (mkChan Int 1) []))) :=
  ⟨by decide, C2_occupancy_gating Int 1 (by decide) [] 5⟩

/-- C3, counterexample: at requested capacity 2 the constructor
allocates storage of length 4, although the smallest power of two at
least as large as 2 is 2 itself, so the claimed sizing rule fails. -/
theorem C3_counterexample : ¬ isLeastPow2GE 2 (storageLen 2) := by
  intro h
  obtain ⟨-, -, hmin⟩ := h
  have h4 : storageLen 2 = 4 := by decide
  have h2 := hmin 2 ⟨1, rfl⟩ le_rfl
  omega

/-- C3, amended: for every requested capacity `c ≥ 1` the constructor
allocates backing storage whose length is the smallest power of two
strictly greater than `c` (the code computes
`2^(floor(log2 c) + 1)`); at `c = 0` the computation is undefined. -/
theorem C3_storage_rounding (c : Nat) (hc : 1 ≤ c) : isLeastPow2GT c (storageLen c) := by
  refine ⟨⟨floorLog2 c + 1, rfl⟩, lt_pow_floorLog2_succ hc, ?_⟩
  rintro m' ⟨k, rfl⟩ hlt
  have hlow := pow_floorLog2_le hc
  have hk : floorLog2 c < k := by
    by_contra hcon
    push_neg at hcon
    have := Nat.pow_le_pow_right (show 1 ≤ 2 by norm_num) hcon
    omega
  exact Nat.pow_le_pow_right (by norm_num) (by omega)

/-- Witness for `C3_storage_rounding` at capacity 3 (storage length
4, the smallest power of two strictly above 3). -/
theorem C3_storage_rounding_witness : 1 ≤ 3 ∧ isLeastPow2GT 3 (storageLen 3) :=
  ⟨by decide, C3_storage_rounding 3 (by decide)⟩

/-- C4: on a freshly constructed channel of capacity 3, the call
sequence Send(1), Send(2), Send(3), Send(4), Receive, Send(4),
Receive, Receive, Receive, Receive produces exactly the returns
true, true, true, false, (true,1), true, (true,2), (true,3),
(true,4), false. -/
theorem C4_boundary_capacity3 :
    (runObs (mkChan Int 3)
      [Op.send 1, Op.send 2, Op.send 3, Op.send 4, Op.receive, Op.send 4,
       Op.receive, Op.receive, Op.receive, Op.receive]).1 =
    [(true, none), (true, none), (true, none), (false, none), (true, some 1),
     (true, none), (true, some 2), (true, some 3), (true, some 4), (false, none)] := by
  decide

/-- C5: a false-returning `Send` leaves every field of the channel
state (read index, write index, every storage slot, capacity, size
and mask) unchanged, and a false-returning `Receive` likewise leaves
the state unchanged and writes nothing through the out pointer (its
result carries no value). -/
theorem C5_false_no_mutation (α : Type) [Inhabited α] (s t : Chan α) (x : α) :
    ((send s x).1 = false → (send s x).2 = s) ∧
    ((receive t).1 = none → (receive t).2 = t) :=
  ⟨send_fail_state s x, receive_fail_state t⟩

/-- Witness for `C5_false_no_mutation`: a full capacity-1 channel on
which `Send` fails, and an empty one on which `Receive` fails. -/
theorem C5_false_no_mutation_witness :
    (send (send (mkChan Int 1) 7).2 8).1 = false ∧
    (send (send (mkChan Int 1) 7).2 8).2 = (send (mkChan Int 1) 7).2 ∧
    (receive (mkChan Int 1)).1 = none ∧
    (receive (mkChan Int 1)).2 = mkChan Int 1 :=
  ⟨by decide,
   (C5_false_no_mutation Int (send (mkChan Int 1) 7).2 (mkChan Int 1) 8).1 (by decide),
   by decide,
   (C5_false_no_mutation Int (send (mkChan Int 1) 7).2 (mkChan Int 1) 8).2 (by decide)⟩

/-- C6: the construction-time validation is broken at capacity 0. The
assertion `assert(capacity >= 0)` accepts 0, yet the sizing
computation `floor(log(capacity)/log(2)) + 1` is undefined there
(`log(0) = -inf`, whose conversion to `int` — and the subsequent
shift — is undefined behavior), so construction neither fails fast
nor produces a well-defined storage length. -/
theorem C6_capacity_zero_accepted_but_undefined :
    ctorAccepts 0 = true ∧ storageLenChecked 0 = none := by
  decide

/-- C7: after any sequence of `Send`/`Receive` calls, `capacity()`
still returns exactly the constructor argument, independent of the
internal power-of-two rounding of the storage. -/
theorem C7_capacity_stable (α : Type) [Inhabited α] (c : Nat) (_hc : 1 ≤ c)
    (ops : List (Op α)) :
    capacity (run (mkChan α c) ops) = c :=
  run_cap (mkChan α c) ops

/-- Witness for `C7_capacity_stable` at capacity 3 after a concrete
call sequence. -/
theorem C7_capacity_stable_witness :
    1 ≤ 3 ∧ capacity (run (mkChan Int 3) [Op.send 1, Op.receive, Op.send 2]) = 3 :=
  ⟨by decide, C7_capacity_stable Int 3 (by decide) [Op.send 1, Op.receive, Op.send 2]⟩

/-- C8: in every reachable state the read and write indices lie
strictly below the storage length (they are naturals, hence also
`≥ 0`, matching the claimed `0 ≤ readIndex, writeIndex <
storageLength`), and the storage length is the one fixed at
construction. -/
theorem C8_index_bounds (α : Type) [Inhabited α] (c : Nat) (_hc : 1 ≤ c)
    (ops : List (Op α)) :
    (run (mkChan α c) ops).r < (run (mkChan α c) ops).size ∧
    (run (mkChan α c) ops).w < (run (mkChan α c) ops).size ∧
    (run (mkChan α c) ops).size = storageLen c := by
  have inv := inv_run (mkChan α c) ops (inv_mkChan α c)
  have hcap : (run (mkChan α c) ops).cap = c := run_cap (mkChan α c) ops
  refine ⟨inv.r_lt, inv.w_lt, ?_⟩
  rw [inv.size_eq, hcap]

/-- Witness for `C8_index_bounds` at capacity 2 after a wrapping call
sequence. -/
theorem C8_index_bounds_witness :
    1 ≤ 2 ∧
    ((run (mkChan Int 2) [Op.send 1, Op.receive, Op.send 2, Op.send 3]).r
        < (run (mkChan Int 2) [Op.send 1, Op.receive, Op.send 2, Op.send 3]).size ∧
      (run (mkChan Int 2) [Op.send 1, Op.receive, Op.send 2, Op.send 3]).w
        < (run (mkChan Int 2) [Op.send 1, Op.receive, Op.send 2, Op.send 3]).size ∧
      (run (mkChan Int 2) [Op.send 1, Op.receive, Op.send 2, Op.send 3]).size
        = storageLen 2) :=
  ⟨by decide, C8_index_bounds Int 2 (by decide) [Op.send 1, Op.receive, Op.send 2, Op.send 3]⟩

/-- C10: run sequentially from equal initial states of any positive
capacity, the volatile/`__sync_synchronize` variant and the
`std::atomic` variant are observationally equivalent: every call
returns the same boolean, every successful `Receive` delivers the
same item, and the final read index, write index and buffer contents
coincide. -/
theorem C10_variants_equivalent (α : Type) [Inhabited α] (c : Nat) (hc : 1 ≤ c)
    (ops : List (Op α)) :
    runObsV1 (mkChan α c) ops = runObs (mkChan α c) ops :=
  runObsWith_V1_eq ops (mkChan α c) (inv_mkChan α c) hc

/-- Witness for `C10_variants_equivalent` at capacity 1 with a
fill/overflow/drain sequence. -/
theorem C10_variants_equivalent_witness :
    1 ≤ 1 ∧
    runObsV1 (mkChan Int 1) [Op.send 9, Op.send 10, Op.receive, Op.receive]
      = runObs (mkChan Int 1) [Op.send 9, Op.send 10, Op.receive, Op.receive] :=
  ⟨by decide,
   C10_variants_equivalent Int 1 (by decide) [Op.send 9, Op.send 10, Op.receive, Op.receive]⟩

end ChannelModel
